import Mathlib

/-!
Verification of the Merkle batching commit layer of the audit-log repository.

The Go sources embedded here are `internal/core/merkle.go` (hash-tree
construction, inclusion-proof derivation and verification) and the
`MerkleBatcher` of `internal/core/service.go` (the batch scheduler loop,
its flush procedure and the `Add` submission facade).

Modelling conventions:
* A Go byte is a `Nat`; `bytesValid` states every entry is `< 256`.
* `crypto/sha256.Sum256` is an abstract digest function
  `H : List Nat → List Nat`; theorems that need it assume only that `H`
  returns valid bytes, which SHA-256 satisfies.
* Go strings of hex digits are `List Char`; `hex.EncodeToString` /
  `hex.DecodeString` are `hexEncode` / `hexDecode` (decode fails on an odd
  number of digits or a non-hex digit, as in Go).
* The JSON wire step of `VerifyMerkleProof` (`json.Marshal` followed by
  `json.Unmarshal` of a plain `[]MerkleProofStep`) is modelled as the
  identity on the parsed step list: `VerifyMerkleProof` here receives the
  step list directly.
* Fallible Go functions returning `(T, error)` become `Except String T`;
  the error string is the Go error message.
* The scheduler goroutine `MerkleBatcher.loop` becomes a state machine
  `loopStep`/`runLoop` driven by the events its `select` can receive
  (an admitted item, the flush timer firing, the stop signal).  Wall-clock
  readings (`time.Now()`) taken during one flush are supplied by an
  abstract `FlushClock`, one per flush; the ledger is an abstract oracle
  answering the n-th `Write` call.
-/

namespace MilitaryAudit

/-- Every byte of the list is a real Go byte (`< 256`). -/
def bytesValid (xs : List Nat) : Prop := ∀ b ∈ xs, b < 256

instance (xs : List Nat) : Decidable (bytesValid xs) := by
  unfold bytesValid; infer_instance

/-- One hex digit of Go's `hextable` (lowercase), used by `hex.EncodeToString`. -/
def hexDigitChar (n : Nat) : Char :=
  if n < 10 then Char.ofNat ('0'.toNat + n) else Char.ofNat ('a'.toNat + n - 10)

/-- `hex.EncodeToString`: each byte becomes `hextable[b>>4], hextable[b&0x0f]`. -/
def hexEncode : List Nat → List Char
  | [] => []
  | b :: rest => hexDigitChar (b / 16) :: hexDigitChar (b % 16) :: hexEncode rest

/-- Value of one hex digit as accepted by Go's `hex.DecodeString`
(digits, lowercase and uppercase letters). -/
def hexDigitVal (c : Char) : Option Nat :=
  if '0' ≤ c ∧ c ≤ '9' then some (c.toNat - '0'.toNat)
  else if 'a' ≤ c ∧ c ≤ 'f' then some (c.toNat - 'a'.toNat + 10)
  else if 'A' ≤ c ∧ c ≤ 'F' then some (c.toNat - 'A'.toNat + 10)
  else none

/-- `hex.DecodeString`: fails on an odd number of digits or an invalid digit. -/
def hexDecode : List Char → Option (List Nat)
  | [] => some []
  | [_] => none
  | c1 :: c2 :: rest =>
    match hexDigitVal c1, hexDigitVal c2, hexDecode rest with
    | some h, some l, some tail => some ((16 * h + l) :: tail)
    | _, _, _ => none

/-- `MerkleProofStep` of merkle.go: a sibling hash (hex) and a side marker
("L": sibling is concatenated before the running hash, "R": after). -/
structure MerkleProofStep where
  hash : List Char
  side : List Char
deriving DecidableEq, Repr

/-- One pairing pass of `buildMerkleLevels`: nodes are taken two at a time,
`parent = H(left ++ right)`; a trailing lone node is paired with itself
(`right := left` when `i+1 ≥ len(curr)`). -/
def pairUp (H : List Nat → List Nat) : List (List Nat) → List (List Nat)
  | [] => []
  | [x] => [H (x ++ x)]
  | x :: y :: rest => H (x ++ y) :: pairUp H rest

/-- The level-building loop of `buildMerkleLevels`: starting from the current
level, keep appending `pairUp` levels until a level of length 1 remains.
The Go loop terminates because each pass at least halves the node count; the
fuel argument (instantiated with the leaf count, always sufficient) makes
that termination explicit. -/
def buildLevelsAux (H : List Nat → List Nat) : Nat → List (List Nat) → List (List (List Nat))
  | 0, curr => [curr]
  | fuel + 1, curr =>
    if curr.length ≤ 1 then [curr]
    else curr :: buildLevelsAux H fuel (pairUp H curr)

/-- All Merkle levels grown from a given level 0 (the loop of
`buildMerkleLevels` after input validation). -/
def buildFrom (H : List Nat → List Nat) (leaves : List (List Nat)) : List (List (List Nat)) :=
  buildLevelsAux H leaves.length leaves

/-- `buildMerkleLevels` of merkle.go: rejects an empty leaf list and any
empty leaf, then builds all levels (level 0 = the leaves). -/
def buildMerkleLevels (H : List Nat → List Nat) (leaves : List (List Nat)) :
    Except String (List (List (List Nat))) :=
  if leaves = [] then .error "no leaves"
  else if leaves.any (fun l => l.isEmpty) then .error "empty leaf"
  else .ok (buildFrom H leaves)

/-- `merkleRootFromLevels`: the single node of the last level. -/
def merkleRootFromLevels (levels : List (List (List Nat))) : List Nat :=
  (levels.getLastD []).headD []

/-- One step of `merkleProof`'s loop body: the sibling is `idx-1` ("L") for
odd `idx`, else `idx+1` ("R"), clamped to `idx` itself when the sibling
index is past the end of the level (`sibIdx >= len(nodes)`, the
duplicated-node case; for the "L" branch the clamp can never trigger). -/
def merkleStepAt (nodes : List (List Nat)) (idx : Nat) : MerkleProofStep :=
  if idx % 2 = 1 then
    ⟨hexEncode (nodes.getD (if nodes.length ≤ idx - 1 then idx else idx - 1) []), ['L']⟩
  else
    ⟨hexEncode (nodes.getD (if nodes.length ≤ idx + 1 then idx else idx + 1) []), ['R']⟩

/-- The proof-collecting loop of `merkleProof`, walking every level except
the last; the index halves at the next level. -/
def merkleProofAux : List (List (List Nat)) → Nat → List MerkleProofStep
  | [], _ => []
  | nodes :: rest, idx => merkleStepAt nodes idx :: merkleProofAux rest (idx / 2)

/-- `merkleProof` of merkle.go: validates the level list and the leaf index
(the Go `index < 0` case cannot arise for a `Nat` index), then collects one
step per level below the root. -/
def merkleProof (levels : List (List (List Nat))) (index : Nat) :
    Except String (List MerkleProofStep) :=
  if levels = [] then .error "no levels"
  else if (levels.headD []).length ≤ index then .error "leaf index out of range"
  else .ok (merkleProofAux levels.dropLast index)

/-- The folding loop of `computeRootFromProof`: hex-decode each sibling,
then hash it on the side its marker dictates; unknown markers fail. -/
def computeRootSteps (H : List Nat → List Nat) :
    List Nat → List MerkleProofStep → Except String (List Nat)
  | curr, [] => .ok curr
  | curr, step :: rest =>
    match hexDecode step.hash with
    | none => .error "invalid proof hash encoding"
    | some sib =>
      if step.side = ['L'] then computeRootSteps H (H (sib ++ curr)) rest
      else if step.side = ['R'] then computeRootSteps H (H (curr ++ sib)) rest
      else .error "invalid proof side"

/-- `computeRootFromProof` of merkle.go. -/
def computeRootFromProof (H : List Nat → List Nat) (leaf : List Nat)
    (proof : List MerkleProofStep) : Except String (List Nat) :=
  if leaf = [] then .error "empty leaf"
  else computeRootSteps H leaf proof

/-- `VerifyMerkleProof` of merkle.go: decode the leaf and root hex strings,
recompute the root from the proof, and compare byte for byte (the Go length
check followed by the byte loop is exactly list equality).  The JSON
unmarshalling of the proof argument is modelled as the identity on the
parsed step list. -/
def VerifyMerkleProof (H : List Nat → List Nat) (leafHashHex : List Char)
    (proof : List MerkleProofStep) (expectedRootHex : List Char) : Except String Bool :=
  match hexDecode leafHashHex with
  | none => .error "invalid leaf hash encoding"
  | some leaf =>
    match hexDecode expectedRootHex with
    | none => .error "invalid root hash encoding"
    | some expectedRoot =>
      match computeRootFromProof H leaf proof with
      | .error e => .error e
      | .ok computed => .ok (decide (computed = expectedRoot))

/-! ## The batch scheduler (`MerkleBatcher` of service.go) -/

/-- `batchItem` of service.go: one admitted leaf with its enqueue timestamp
(the per-item response channel is represented by the delivery lists the
model returns). -/
structure BatchItem where
  leaf : List Nat
  enqueuedUnixNS : Int
deriving DecidableEq, Repr

/-- `MerkleBatchResult` of service.go. -/
structure MerkleBatchResult where
  Root : List Char
  TxID : String
  Index : Nat
  BatchSize : Nat
  Proof : List MerkleProofStep
  Err : String
  EnqueueUnixNS : Int
  FlushStartUnixNS : Int
  BuildStartUnixNS : Int
  BuildEndUnixNS : Int
  LedgerStartUnixNS : Int
  LedgerEndUnixNS : Int
  ResponseUnixNS : Int
deriving DecidableEq, Repr

/-- The Go zero value `MerkleBatchResult{}`. -/
def MerkleBatchResult.zero : MerkleBatchResult :=
  ⟨[], "", 0, 0, [], "", 0, 0, 0, 0, 0, 0, 0⟩

/-- The `time.Now()` readings one execution of `flush` observes, plus the
RFC3339 timestamp interpolated into the commit metadata.  `responseNS i` is
the reading taken while delivering to the i-th item of the batch. -/
structure FlushClock where
  flushStartNS : Int
  buildStartNS : Int
  buildEndNS : Int
  ledgerStartNS : Int
  ledgerEndNS : Int
  createdAt : String
  responseNS : Nat → Int

/-- The batch-commit metadata string `flush` formats for the ledger. -/
def metaOf (rootHex : List Char) (count : Nat) (createdAt : String) : String :=
  "type=merkle_batch; root=" ++ String.mk rootHex ++ "; leaves=" ++ toString count ++
    "; leaf_algo=sha256(file_bytes); node_algo=sha256(l||r); created_at=" ++ createdAt

/-- One recorded invocation of the Ledger Client's `Write`. -/
structure WriteRec where
  rootHex : List Char
  meta : String
  leafCount : Nat
deriving DecidableEq, Repr

/-- Environment of a running `MerkleBatcher`: the digest function, the
configured size threshold, the ledger as an oracle answering the n-th
`Write` call, and the clock readings of the n-th flush. -/
structure BatcherEnv where
  H : List Nat → List Nat
  batchSize : Nat
  ledger : Nat → List Char → String → Except String String
  clock : Nat → FlushClock

/-- `for i, it := range items` — a map that also supplies the position. -/
def mapFromIdx {α β : Type} (f : Nat → α → β) : Nat → List α → List β
  | _, [] => []
  | n, a :: as => f n a :: mapFromIdx f (n + 1) as

/-- The `flush` closure of `MerkleBatcher.loop`.  Returns the results
delivered to each item's response channel (paired with the item, in batch
order) and the `Write` invocations performed.  A flush of an empty batch is
a no-op; a build failure delivers the build error with only the enqueue
timestamp set; a ledger failure delivers the identical ledger error to
every item with all timing fields populated; on success every item gets the
shared root, commit ID and batch size plus its own index and proof
(`merkleProof`'s error is discarded as in `proof, _ := merkleProof(...)`). -/
def flushBatch (env : BatcherEnv) (fc wc : Nat) (items : List BatchItem) :
    List (BatchItem × MerkleBatchResult) × List WriteRec :=
  if items = [] then ([], [])
  else
    match buildMerkleLevels env.H (items.map BatchItem.leaf) with
    | .error e =>
      (items.map (fun it => (it,
        { MerkleBatchResult.zero with
            Err := e
            EnqueueUnixNS := it.enqueuedUnixNS })), [])
    | .ok levels =>
      match env.ledger wc (hexEncode (merkleRootFromLevels levels))
          (metaOf (hexEncode (merkleRootFromLevels levels))
            (items.map BatchItem.leaf).length (env.clock fc).createdAt) with
      | .error e =>
        (mapFromIdx (fun i it => (it,
          { MerkleBatchResult.zero with
              Err := e
              EnqueueUnixNS := it.enqueuedUnixNS
              FlushStartUnixNS := (env.clock fc).flushStartNS
              BuildStartUnixNS := (env.clock fc).buildStartNS
              BuildEndUnixNS := (env.clock fc).buildEndNS
              LedgerStartUnixNS := (env.clock fc).ledgerStartNS
              LedgerEndUnixNS := (env.clock fc).ledgerEndNS
              ResponseUnixNS := (env.clock fc).responseNS i })) 0 items,
         [⟨hexEncode (merkleRootFromLevels levels),
           metaOf (hexEncode (merkleRootFromLevels levels))
             (items.map BatchItem.leaf).length (env.clock fc).createdAt,
           (items.map BatchItem.leaf).length⟩])
      | .ok txID =>
        (mapFromIdx (fun i it => (it,
          { Root := hexEncode (merkleRootFromLevels levels)
            TxID := txID
            Index := i
            BatchSize := items.length
            Proof := (merkleProof levels i).toOption.getD []
            Err := ""
            EnqueueUnixNS := it.enqueuedUnixNS
            FlushStartUnixNS := (env.clock fc).flushStartNS
            BuildStartUnixNS := (env.clock fc).buildStartNS
            BuildEndUnixNS := (env.clock fc).buildEndNS
            LedgerStartUnixNS := (env.clock fc).ledgerStartNS
            LedgerEndUnixNS := (env.clock fc).ledgerEndNS
            ResponseUnixNS := (env.clock fc).responseNS i })) 0 items,
         [⟨hexEncode (merkleRootFromLevels levels),
           metaOf (hexEncode (merkleRootFromLevels levels))
             (items.map BatchItem.leaf).length (env.clock fc).createdAt,
           (items.map BatchItem.leaf).length⟩])

/-- The three events the `select` of `MerkleBatcher.loop` can receive:
an item from the admission channel, the flush deadline timer firing, and
the stop signal from `Close`. -/
inductive LoopEvent where
  | recv (it : BatchItem)
  | timerFire
  | stopSignal
deriving DecidableEq, Repr

/-- Loop-owned state: the open batch (arrival order), the number of flushes
performed (selects the flush's clock) and the number of ledger writes
performed (selects the ledger oracle's answer).  The deadline timer is armed
exactly when the batch is non-empty, so it needs no separate field. -/
structure LoopState where
  batch : List BatchItem
  flushCount : Nat
  writeCount : Nat
deriving DecidableEq, Repr

/-- One iteration of the `select` loop of `MerkleBatcher.loop`: an admitted
item is appended and the batch is flushed immediately if it reached the
size threshold; a timer fire or the stop signal flushes whatever is open
(a no-op on an empty batch, which does not consume a clock or a write). -/
def loopStep (env : BatcherEnv) (s : LoopState) :
    LoopEvent → LoopState × List (BatchItem × MerkleBatchResult) × List WriteRec
  | .recv it =>
    if env.batchSize ≤ (s.batch ++ [it]).length then
      (⟨[], s.flushCount + 1,
        s.writeCount + (flushBatch env s.flushCount s.writeCount (s.batch ++ [it])).2.length⟩,
       flushBatch env s.flushCount s.writeCount (s.batch ++ [it]))
    else (⟨s.batch ++ [it], s.flushCount, s.writeCount⟩, [], [])
  | .timerFire =>
    if s.batch = [] then (s, [], [])
    else
      (⟨[], s.flushCount + 1,
        s.writeCount + (flushBatch env s.flushCount s.writeCount s.batch).2.length⟩,
       flushBatch env s.flushCount s.writeCount s.batch)
  | .stopSignal =>
    if s.batch = [] then (s, [], [])
    else
      (⟨[], s.flushCount + 1,
        s.writeCount + (flushBatch env s.flushCount s.writeCount s.batch).2.length⟩,
       flushBatch env s.flushCount s.writeCount s.batch)

/-- Run of the scheduler loop over a sequence of events.  The stop signal
performs the final flush and exits the loop: later events are never
processed (the goroutine has returned), so items still in the admission
buffer after `Close` are never answered. -/
def runLoop (env : BatcherEnv) : LoopState → List LoopEvent →
    LoopState × List (BatchItem × MerkleBatchResult) × List WriteRec
  | s, [] => (s, [], [])
  | s, e :: evs =>
    match e with
    | .stopSignal => loopStep env s .stopSignal
    | e' =>
      ((runLoop env (loopStep env s e').1 evs).1,
       (loopStep env s e').2.1 ++ (runLoop env (loopStep env s e').1 evs).2.1,
       (loopStep env s e').2.2 ++ (runLoop env (loopStep env s e').1 evs).2.2)

/-- The back half of `MerkleBatcher.Add` for an open batcher: validate the
leaf length, then convert the result delivered on the response channel —
a result with a non-empty `Err` is turned into a bare Go error with the
zero `MerkleBatchResult` (`return MerkleBatchResult{}, fmt.Errorf(res.Err)`),
modelled as `Except.error`. -/
def addOutcome (leaf : List Nat) (res : MerkleBatchResult) :
    Except String MerkleBatchResult :=
  if leaf.length ≠ 32 then .error "leaf hash must be 32 bytes (raw sha256)"
  else if res.Err ≠ "" then .error res.Err
  else .ok res

/-- Possible fates of an `Add` call made after `Close` has completed. -/
inductive AddAfterClose where
  | failFast
  | enqueueBlocked
deriving DecidableEq, Repr

/-- `Add` after `Close` executes `select { case b.in <- it: ...; case
<-b.stop: ... }` with `b.stop` closed, so the stop case is always ready;
the buffered send is also ready whenever `b.in` has free capacity, and Go
chooses uniformly among ready cases.  Hence with buffer space the call may
either fail fast or enqueue the item. -/
def addAfterClosePossible (bufferHasSpace : Bool) : List AddAfterClose :=
  if bufferHasSpace then [.failFast, .enqueueBlocked] else [.failFast]

/-- What each fate returns to the caller: failing fast yields the distinct
closed error; enqueueing blocks forever on `<-it.resp` (the loop goroutine
has already returned and nothing drains `b.in`), so no value is ever
returned. -/
def addAfterCloseDelivers : AddAfterClose → Option (Except String MerkleBatchResult)
  | .failFast => some (.error "merkle batcher stopped")
  | .enqueueBlocked => none

/-! ## Concrete instances used by witnesses and counterexamples -/

/-- A trivial stand-in digest (witnesses only quantify over the digest's
byte-validity, which this satisfies). -/
def constHash : List Nat → List Nat := fun _ => [0]

/-- A fixed flush clock for concrete runs. -/
def clock0 : FlushClock := ⟨11, 12, 13, 14, 15, "t0", fun _ => 16⟩

/-- Environment whose ledger always fails. -/
def envFail : BatcherEnv := ⟨constHash, 4, fun _ _ _ => .error "ledger down", fun _ => clock0⟩

/-- Environment whose ledger fails on its first write and succeeds after. -/
def envFlaky : BatcherEnv :=
  ⟨constHash, 4, fun wc _ _ => if wc = 0 then .error "boom" else .ok "tx1", fun _ => clock0⟩

/-- Environment whose ledger always succeeds. -/
def envOk : BatcherEnv := ⟨constHash, 4, fun _ _ _ => .ok "tx1", fun _ => clock0⟩

/-- A well-formed admitted item (a 32-byte leaf). -/
def item3 : BatchItem := ⟨List.replicate 32 0, 10⟩

/-! ## List helpers -/

theorem getD_mem {α : Type} : ∀ (l : List α) (n : Nat) (d : α), n < l.length → l.getD n d ∈ l
  | a :: _, 0, _, _ => by simp
  | a :: t, n + 1, d, h => by
    simp only [List.getD_cons_succ]
    exact List.mem_cons_of_mem a (getD_mem t n d (by simp at h; omega))

theorem getD_irrel {α : Type} : ∀ (l : List α) (n : Nat) (d d' : α),
    n < l.length → l.getD n d = l.getD n d'
  | _ :: _, 0, _, _, _ => rfl
  | a :: t, n + 1, d, d', h => by
    simp only [List.getD_cons_succ]
    exact getD_irrel t n d d' (by simp at h; omega)

theorem getD_out {α : Type} : ∀ (l : List α) (n : Nat) (d : α), l.length ≤ n → l.getD n d = d
  | [], _, _, _ => rfl
  | a :: t, 0, d, h => by simp at h
  | a :: t, n + 1, d, h => by
    simp only [List.getD_cons_succ]
    exact getD_out t n d (by simp at h; omega)

theorem getD_zero_headD {α : Type} (l : List α) (d : α) : l.getD 0 d = l.headD d := by
  cases l <;> rfl

theorem getLastD_of_ne_nil {α : Type} (l : List α) (h : l ≠ []) (d d' : α) :
    l.getLastD d = l.getLastD d' := by
  cases l with
  | nil => exact absurd rfl h
  | cons a t =>
    have hs : (a :: t).getLast?.isSome := List.getLast?_isSome.mpr (by simp)
    obtain ⟨x, hx⟩ := Option.isSome_iff_exists.mp hs
    simp [List.getLastD, hx]

/-! ## Hex round trip -/

theorem hexDigitVal_hexDigitChar (x : Nat) (hx : x < 16) :
    hexDigitVal (hexDigitChar x) = some x := by
  interval_cases x <;> decide

theorem hexDecode_hexEncode (bs : List Nat) (h : bytesValid bs) :
    hexDecode (hexEncode bs) = some bs := by
  induction bs with
  | nil => rfl
  | cons b t ih =>
    have hb : b < 256 := h b (List.mem_cons_self b t)
    have ht : bytesValid t := fun x hx => h x (List.mem_cons_of_mem _ hx)
    have h1 : hexDigitVal (hexDigitChar (b / 16)) = some (b / 16) :=
      hexDigitVal_hexDigitChar _ (by omega)
    have h2 : hexDigitVal (hexDigitChar (b % 16)) = some (b % 16) :=
      hexDigitVal_hexDigitChar _ (by omega)
    simp only [hexEncode, hexDecode, h1, h2, ih ht]
    have : 16 * (b / 16) + b % 16 = b := by omega
    rw [this]

/-! ## Pairing lemmas -/

theorem pairUp_length (H : List Nat → List Nat) :
    ∀ l : List (List Nat), (pairUp H l).length = (l.length + 1) / 2
  | [] => by simp [pairUp]
  | [x] => by simp [pairUp]
  | x :: y :: rest => by
    simp only [pairUp, List.length_cons, pairUp_length H rest]
    omega

theorem pairUp_ne_nil (H : List Nat → List Nat) (l : List (List Nat)) (h : l ≠ []) :
    pairUp H l ≠ [] := by
  intro hc
  have hl := pairUp_length H l
  rw [hc] at hl
  simp at hl
  exact h (List.eq_nil_of_length_eq_zero (by omega))

theorem pairUp_valid (H : List Nat → List Nat) (Hok : ∀ x, bytesValid (H x)) :
    ∀ l : List (List Nat), ∀ n ∈ pairUp H l, bytesValid n
  | [] => by simp [pairUp]
  | [x] => by
    intro n hn
    simp [pairUp] at hn
    subst hn
    exact Hok _
  | x :: y :: rest => by
    intro n hn
    simp only [pairUp, List.mem_cons] at hn
    rcases hn with h | h
    · subst h; exact Hok _
    · exact pairUp_valid H Hok rest n h

theorem pairUp_getD (H : List Nat → List Nat) :
    ∀ (l : List (List Nat)) (i : Nat), 2 * i < l.length →
    (pairUp H l).getD i [] = H (l.getD (2 * i) [] ++ l.getD (2 * i + 1) (l.getD (2 * i) []))
  | [], i, h => by simp at h
  | [x], i, h => by
    have hi : i = 0 := by simp at h; omega
    subst hi
    simp [pairUp]
  | x :: y :: rest, 0, h => by simp [pairUp]
  | x :: y :: rest, i + 1, h => by
    have hr : 2 * i < rest.length := by simp at h; omega
    have ih := pairUp_getD H rest i hr
    have e1 : 2 * (i + 1) = 2 * i + 1 + 1 := by omega
    simp only [pairUp, e1, List.getD_cons_succ]
    exact ih

/-! ## Level-construction lemmas -/

theorem buildLevelsAux_ne_nil (H : List Nat → List Nat) :
    ∀ (fuel : Nat) (curr : List (List Nat)), buildLevelsAux H fuel curr ≠ []
  | 0, curr => by simp [buildLevelsAux]
  | fuel + 1, curr => by
    by_cases h : curr.length ≤ 1 <;> simp [buildLevelsAux, h]

theorem buildLevelsAux_headD (H : List Nat → List Nat) :
    ∀ (fuel : Nat) (curr : List (List Nat)), (buildLevelsAux H fuel curr).headD [] = curr
  | 0, curr => rfl
  | fuel + 1, curr => by
    by_cases h : curr.length ≤ 1 <;> simp [buildLevelsAux, h]

theorem root_of_single (curr : List (List Nat)) :
    merkleRootFromLevels [curr] = curr.headD [] := by
  simp [merkleRootFromLevels, List.getLastD_cons]

theorem merkleRootFromLevels_cons (curr : List (List Nat)) (L : List (List (List Nat)))
    (h : L ≠ []) : merkleRootFromLevels (curr :: L) = merkleRootFromLevels L := by
  unfold merkleRootFromLevels
  rw [List.getLastD_cons, getLastD_of_ne_nil L h curr []]

theorem headD_valid (curr : List (List Nat)) (hv : ∀ n ∈ curr, bytesValid n) :
    bytesValid (curr.headD []) := by
  cases curr with
  | nil => intro b hb; simp at hb
  | cons c t => exact hv c (by simp)

theorem root_valid (H : List Nat → List Nat) (Hok : ∀ x, bytesValid (H x)) :
    ∀ (fuel : Nat) (curr : List (List Nat)), (∀ n ∈ curr, bytesValid n) →
    bytesValid (merkleRootFromLevels (buildLevelsAux H fuel curr))
  | 0, curr, hv => by
    simpa [buildLevelsAux, root_of_single] using headD_valid curr hv
  | fuel + 1, curr, hv => by
    simp only [buildLevelsAux]
    by_cases h : curr.length ≤ 1
    · simpa [h, root_of_single] using headD_valid curr hv
    · rw [if_neg h, merkleRootFromLevels_cons _ _ (buildLevelsAux_ne_nil H fuel _)]
      exact root_valid H Hok fuel (pairUp H curr) (pairUp_valid H Hok _)

theorem buildLevelsAux_length (H : List Nat → List Nat) :
    ∀ (fuel : Nat) (curr : List (List Nat)), curr.length ≤ fuel + 1 → curr ≠ [] →
    (buildLevelsAux H fuel curr).length = Nat.clog 2 curr.length + 1
  | 0, curr, hf, hn => by
    have h1 : curr.length = 1 := by
      have := List.length_pos.mpr hn
      omega
    simp [buildLevelsAux, h1, Nat.clog_one_right]
  | fuel + 1, curr, hf, hn => by
    by_cases h : curr.length ≤ 1
    · have h1 : curr.length = 1 := by
        have := List.length_pos.mpr hn
        omega
      simp [buildLevelsAux, h, h1, Nat.clog_one_right]
    · have h2 : 2 ≤ curr.length := by omega
      have hplen := pairUp_length H curr
      have ih := buildLevelsAux_length H fuel (pairUp H curr) (by omega) (pairUp_ne_nil H curr hn)
      simp only [buildLevelsAux, if_neg h, List.length_cons, ih, hplen]
      have hc := Nat.clog_of_two_le (b := 2) (by norm_num) h2
      have e : curr.length + 2 - 1 = curr.length + 1 := by omega
      rw [e] at hc
      omega

theorem buildLevelsAux_chain (H : List Nat → List Nat) :
    ∀ (fuel : Nat) (curr : List (List Nat)) (k : Nat),
    k + 1 < (buildLevelsAux H fuel curr).length →
    (buildLevelsAux H fuel curr).getD (k + 1) [] =
      pairUp H ((buildLevelsAux H fuel curr).getD k [])
  | 0, curr, k, h => by simp [buildLevelsAux] at h
  | fuel + 1, curr, k, h => by
    by_cases hc : curr.length ≤ 1
    · simp [buildLevelsAux, hc] at h
    · simp only [buildLevelsAux, if_neg hc] at h ⊢
      cases k with
      | zero =>
        simp only [List.getD_cons_succ, List.getD_cons_zero]
        rw [getD_zero_headD, buildLevelsAux_headD]
      | succ k =>
        simp only [List.getD_cons_succ]
        exact buildLevelsAux_chain H fuel (pairUp H curr) k (by simpa using h)

theorem buildLevelsAux_last_length (H : List Nat → List Nat) :
    ∀ (fuel : Nat) (curr : List (List Nat)), curr.length ≤ fuel + 1 → curr ≠ [] →
    ((buildLevelsAux H fuel curr).getLastD []).length = 1
  | 0, curr, hf, hn => by
    have h1 : curr.length = 1 := by
      have := List.length_pos.mpr hn
      omega
    simp [buildLevelsAux, List.getLastD_cons, h1]
  | fuel + 1, curr, hf, hn => by
    by_cases hc : curr.length ≤ 1
    · have h1 : curr.length = 1 := by
        have := List.length_pos.mpr hn
        omega
      simp [buildLevelsAux, hc, List.getLastD_cons, h1]
    · have hplen := pairUp_length H curr
      simp only [buildLevelsAux, if_neg hc, List.getLastD_cons]
      rw [getLastD_of_ne_nil _ (buildLevelsAux_ne_nil H fuel _) curr []]
      exact buildLevelsAux_last_length H fuel (pairUp H curr) (by omega)
        (pairUp_ne_nil H curr hn)

theorem merkleProofAux_length :
    ∀ (lvls : List (List (List Nat))) (idx : Nat),
    (merkleProofAux lvls idx).length = lvls.length
  | [], _ => rfl
  | nodes :: rest, idx => by
    simp [merkleProofAux, merkleProofAux_length rest]

/-! ## Proof recomputation -/

theorem computeRootSteps_cons (H : List Nat → List Nat) (curr : List (List Nat))
    (hv : ∀ n ∈ curr, bytesValid n) (idx : Nat) (hi : idx < curr.length)
    (ls : List (List (List Nat))) :
    computeRootSteps H (curr.getD idx []) (merkleProofAux (curr :: ls) idx)
      = computeRootSteps H ((pairUp H curr).getD (idx / 2) []) (merkleProofAux ls (idx / 2)) := by
  have hmem : ∀ j, j < curr.length → bytesValid (curr.getD j []) :=
    fun j hj => hv _ (getD_mem curr j [] hj)
  have hRL : ((['R'] : List Char) = ['L']) = False := eq_false (by decide)
  simp only [merkleProofAux]
  by_cases hodd : idx % 2 = 1
  · have hlt : idx - 1 < curr.length := by omega
    have hcl : ¬ (curr.length ≤ idx - 1) := by omega
    simp only [merkleStepAt, if_pos hodd, if_neg hcl]
    simp only [computeRootSteps, hexDecode_hexEncode _ (hmem _ hlt), if_true]
    have harg : H (curr.getD (idx - 1) [] ++ curr.getD idx [])
        = (pairUp H curr).getD (idx / 2) [] := by
      rw [pairUp_getD H curr (idx / 2) (by omega)]
      have e1 : 2 * (idx / 2) = idx - 1 := by omega
      have e2 : 2 * (idx / 2) + 1 = idx := by omega
      rw [e2, e1, ← getD_irrel curr idx [] (curr.getD (idx - 1) []) hi]
    rw [harg]
  · by_cases hcl : curr.length ≤ idx + 1
    · simp only [merkleStepAt, if_neg hodd, if_pos hcl]
      simp only [computeRootSteps, hexDecode_hexEncode _ (hmem _ hi), hRL, if_false, if_true]
      have harg : H (curr.getD idx [] ++ curr.getD idx [])
          = (pairUp H curr).getD (idx / 2) [] := by
        rw [pairUp_getD H curr (idx / 2) (by omega)]
        have e1 : 2 * (idx / 2) = idx := by omega
        rw [e1, getD_out curr (idx + 1) _ (by omega)]
      rw [harg]
    · have hlt : idx + 1 < curr.length := by omega
      simp only [merkleStepAt, if_neg hodd, if_neg hcl]
      simp only [computeRootSteps, hexDecode_hexEncode _ (hmem _ hlt), hRL, if_false, if_true]
      have harg : H (curr.getD idx [] ++ curr.getD (idx + 1) [])
          = (pairUp H curr).getD (idx / 2) [] := by
        rw [pairUp_getD H curr (idx / 2) (by omega)]
        have e1 : 2 * (idx / 2) = idx := by omega
        have e2 : 2 * (idx / 2) + 1 = idx + 1 := by omega
        rw [e2, e1, ← getD_irrel curr (idx + 1) [] (curr.getD idx []) hlt]
      rw [harg]

theorem computeRootSteps_buildAux (H : List Nat → List Nat) (Hok : ∀ x, bytesValid (H x)) :
    ∀ (fuel : Nat) (curr : List (List Nat)), curr.length ≤ fuel + 1 →
    (∀ n ∈ curr, bytesValid n) → ∀ idx, idx < curr.length →
    computeRootSteps H (curr.getD idx [])
        (merkleProofAux (buildLevelsAux H fuel curr).dropLast idx)
      = .ok (merkleRootFromLevels (buildLevelsAux H fuel curr))
  | 0, curr, hf, hv, idx, hi => by
    have h1 : curr.length = 1 := by omega
    have hidx : idx = 0 := by omega
    subst hidx
    obtain ⟨c, hc⟩ := List.length_eq_one.mp h1
    subst hc
    simp [buildLevelsAux, merkleProofAux, computeRootSteps, root_of_single]
  | fuel + 1, curr, hf, hv, idx, hi => by
    by_cases h : curr.length ≤ 1
    · have h1 : curr.length = 1 := by omega
      have hidx : idx = 0 := by omega
      subst hidx
      obtain ⟨c, hc⟩ := List.length_eq_one.mp h1
      subst hc
      simp [buildLevelsAux, h, merkleProofAux, computeRootSteps, root_of_single]
    · have h2 : 2 ≤ curr.length := by omega
      have hne : curr ≠ [] := by
        intro hc
        subst hc
        simp at h2
      have hLne : buildLevelsAux H fuel (pairUp H curr) ≠ [] :=
        buildLevelsAux_ne_nil H fuel _
      have haux : buildLevelsAux H (fuel + 1) curr
          = curr :: buildLevelsAux H fuel (pairUp H curr) := by
        simp [buildLevelsAux, h]
      rw [haux]
      have hdrop : (curr :: buildLevelsAux H fuel (pairUp H curr)).dropLast
          = curr :: (buildLevelsAux H fuel (pairUp H curr)).dropLast := by
        cases hL : buildLevelsAux H fuel (pairUp H curr) with
        | nil => exact absurd hL hLne
        | cons a t => simp
      rw [hdrop, computeRootSteps_cons H curr hv idx hi _]
      have hplen := pairUp_length H curr
      have ih := computeRootSteps_buildAux H Hok fuel (pairUp H curr) (by omega)
        (pairUp_valid H Hok curr) (idx / 2) (by omega)
      rw [ih, merkleRootFromLevels_cons _ _ hLne]

theorem buildMerkleLevels_ok (H : List Nat → List Nat) (leaves : List (List Nat))
    (hne : leaves ≠ []) (hno : ∀ l ∈ leaves, l ≠ []) :
    buildMerkleLevels H leaves = .ok (buildFrom H leaves) := by
  have hany : leaves.any (fun l => l.isEmpty) = false := by
    rw [List.any_eq_false]
    intro l hl
    simpa [List.isEmpty_iff] using hno l hl
  simp [buildMerkleLevels, hne, hany]

theorem merkleProof_ok (H : List Nat → List Nat) (leaves : List (List Nat))
    (i : Nat) (hi : i < leaves.length) :
    merkleProof (buildFrom H leaves) i
      = .ok (merkleProofAux (buildFrom H leaves).dropLast i) := by
  unfold merkleProof buildFrom
  rw [if_neg (buildLevelsAux_ne_nil H leaves.length leaves),
    buildLevelsAux_headD H leaves.length leaves, if_neg (by omega)]

/-- Claim C1: for every non-empty sequence of 32-byte leaves, building the
levels with `buildMerkleLevels`, taking the root, and deriving the proof
for each leaf index `i` with `merkleProof`, `VerifyMerkleProof` applied to
(hex of leaf `i`, the proof, hex of the root) returns a true match with no
error.  The digest is abstract; only byte-validity of its output is used. -/
theorem merkle_roundtrip_verifies (H : List Nat → List Nat) (Hok : ∀ x, bytesValid (H x))
    (leaves : List (List Nat)) (hne : leaves ≠ [])
    (h32 : ∀ l ∈ leaves, l.length = 32) (hval : ∀ l ∈ leaves, bytesValid l)
    (i : Nat) (hi : i < leaves.length) :
    ∃ levels proof,
      buildMerkleLevels H leaves = .ok levels ∧
      merkleProof levels i = .ok proof ∧
      VerifyMerkleProof H (hexEncode (leaves.getD i [])) proof
        (hexEncode (merkleRootFromLevels levels)) = .ok true := by
  have hno : ∀ l ∈ leaves, l ≠ [] := by
    intro l hl hc
    have := h32 l hl
    rw [hc] at this
    simp at this
  refine ⟨buildFrom H leaves, merkleProofAux (buildFrom H leaves).dropLast i,
    buildMerkleLevels_ok H leaves hne hno, merkleProof_ok H leaves i hi, ?_⟩
  have hleafval : bytesValid (leaves.getD i []) := hval _ (getD_mem leaves i [] hi)
  have hrootval : bytesValid (merkleRootFromLevels (buildFrom H leaves)) :=
    root_valid H Hok leaves.length leaves hval
  have hlne : leaves.getD i [] ≠ [] := by
    intro hc
    have := h32 _ (getD_mem leaves i [] hi)
    rw [hc] at this
    simp at this
  have hsteps := computeRootSteps_buildAux H Hok leaves.length leaves (by omega) hval i hi
  have h1 : hexDecode (hexEncode (leaves.getD i [])) = some (leaves.getD i []) :=
    hexDecode_hexEncode _ hleafval
  have h2 : hexDecode (hexEncode (merkleRootFromLevels (buildLevelsAux H leaves.length leaves)))
      = some (merkleRootFromLevels (buildLevelsAux H leaves.length leaves)) :=
    hexDecode_hexEncode _ hrootval
  simp only [VerifyMerkleProof, h1, h2, computeRootFromProof, if_neg hlne, buildFrom, hsteps]
  exact congrArg Except.ok (decide_eq_true trivial)

/-- Witness for C1 at a concrete two-leaf batch of 32-byte leaves. -/
theorem merkle_roundtrip_verifies_witness :
    ∃ levels proof,
      buildMerkleLevels constHash [List.replicate 32 0, List.replicate 32 1] = .ok levels ∧
      merkleProof levels 0 = .ok proof ∧
      VerifyMerkleProof constHash
        (hexEncode (([List.replicate 32 0, List.replicate 32 1] : List (List Nat)).getD 0 []))
        proof (hexEncode (merkleRootFromLevels levels)) = .ok true :=
  merkle_roundtrip_verifies constHash (by intro x; show bytesValid [0]; decide)
    [List.replicate 32 0, List.replicate 32 1] (by decide) (by decide) (by decide) 0 (by decide)

/-- Claim C5: for every non-empty leaf sequence and valid leaf index, the
proof returned by `merkleProof` has length `number of levels - 1`, which
equals the ceiling log (base 2) of the batch size. -/
theorem merkleProof_length_spec (H : List Nat → List Nat) (leaves : List (List Nat))
    (hne : leaves ≠ []) (i : Nat) (hi : i < leaves.length) (p : List MerkleProofStep)
    (hp : merkleProof (buildFrom H leaves) i = .ok p) :
    p.length = (buildFrom H leaves).length - 1 ∧
    (buildFrom H leaves).length - 1 = Nat.clog 2 leaves.length := by
  rw [merkleProof_ok H leaves i hi] at hp
  have hp' : merkleProofAux (buildFrom H leaves).dropLast i = p := by
    injection hp
  subst hp'
  constructor
  · rw [merkleProofAux_length, List.length_dropLast]
  · have hl := buildLevelsAux_length H leaves.length leaves (by omega) hne
    unfold buildFrom
    omega

/-- Witness for C5 at a concrete three-leaf batch (proof length 2 = ⌈log2 3⌉). -/
theorem merkleProof_length_spec_witness :
    ((merkleProof (buildFrom constHash [[1], [2], [3]]) 1).toOption.getD []).length
        = (buildFrom constHash [[1], [2], [3]]).length - 1 ∧
    (buildFrom constHash [[1], [2], [3]]).length - 1
        = Nat.clog 2 ([[1], [2], [3]] : List (List Nat)).length :=
  merkleProof_length_spec constHash [[1], [2], [3]] (by decide) 1 (by decide)
    ((merkleProof (buildFrom constHash [[1], [2], [3]]) 1).toOption.getD []) (by rfl)

/-- Claim C6: level 0 is the leaf list; every later level is the consecutive
pairing of the one below with `parent = H(left ++ right)`, a lone trailing
node being paired with itself; each parent level has `(n+1)/2 = ⌈n/2⌉`
nodes; construction ends in a level of length 1. -/
theorem merkle_pairing_rule (H : List Nat → List Nat) (leaves : List (List Nat))
    (hne : leaves ≠ []) :
    ((buildFrom H leaves).getD 0 [] = leaves) ∧
    (∀ k, k + 1 < (buildFrom H leaves).length →
      (buildFrom H leaves).getD (k + 1) [] = pairUp H ((buildFrom H leaves).getD k [])) ∧
    (∀ lvl : List (List Nat), (pairUp H lvl).length = (lvl.length + 1) / 2) ∧
    (∀ (lvl : List (List Nat)) (i : Nat), 2 * i + 1 < lvl.length →
      (pairUp H lvl).getD i [] = H (lvl.getD (2 * i) [] ++ lvl.getD (2 * i + 1) [])) ∧
    (∀ (lvl : List (List Nat)) (i : Nat), 2 * i + 1 = lvl.length →
      (pairUp H lvl).getD i [] = H (lvl.getD (2 * i) [] ++ lvl.getD (2 * i) [])) ∧
    (((buildFrom H leaves).getLastD []).length = 1) := by
  refine ⟨?_, ?_, pairUp_length H, ?_, ?_, ?_⟩
  · rw [getD_zero_headD]
    exact buildLevelsAux_headD H leaves.length leaves
  · exact fun k hk => buildLevelsAux_chain H leaves.length leaves k hk
  · intro lvl i hlt
    rw [pairUp_getD H lvl i (by omega),
      ← getD_irrel lvl (2 * i + 1) [] (lvl.getD (2 * i) []) hlt]
  · intro lvl i heq
    rw [pairUp_getD H lvl i (by omega), getD_out lvl (2 * i + 1) _ (by omega)]
  · exact buildLevelsAux_last_length H leaves.length leaves (by omega) hne

/-- Witness for C6 at a concrete three-leaf batch. -/
theorem merkle_pairing_rule_witness :
    ((buildFrom constHash [[1], [2], [3]]).getD 0 [] = [[1], [2], [3]]) ∧
    (∀ k, k + 1 < (buildFrom constHash [[1], [2], [3]]).length →
      (buildFrom constHash [[1], [2], [3]]).getD (k + 1) []
        = pairUp constHash ((buildFrom constHash [[1], [2], [3]]).getD k [])) ∧
    (∀ lvl : List (List Nat), (pairUp constHash lvl).length = (lvl.length + 1) / 2) ∧
    (∀ (lvl : List (List Nat)) (i : Nat), 2 * i + 1 < lvl.length →
      (pairUp constHash lvl).getD i []
        = constHash (lvl.getD (2 * i) [] ++ lvl.getD (2 * i + 1) [])) ∧
    (∀ (lvl : List (List Nat)) (i : Nat), 2 * i + 1 = lvl.length →
      (pairUp constHash lvl).getD i []
        = constHash (lvl.getD (2 * i) [] ++ lvl.getD (2 * i) [])) ∧
    (((buildFrom constHash [[1], [2], [3]]).getLastD []).length = 1) :=
  merkle_pairing_rule constHash [[1], [2], [3]] (by decide)

/-- Claim C9: a single-leaf batch yields a single level, the root is the
leaf itself (no hashing applied — the statement holds for every digest
function), the derived proof is empty, and verification with an empty proof
matches exactly when the decoded leaf bytes equal the decoded root bytes. -/
theorem single_leaf_batch (H : List Nat → List Nat) (l : List Nat) (hl : l ≠ [])
    (leafHex rootHex : List Char) (a r : List Nat)
    (ha : hexDecode leafHex = some a) (hr : hexDecode rootHex = some r) (hane : a ≠ []) :
    buildMerkleLevels H [l] = .ok [[l]] ∧
    merkleRootFromLevels [[l]] = l ∧
    merkleProof [[l]] 0 = .ok [] ∧
    (VerifyMerkleProof H leafHex [] rootHex = .ok true ↔ a = r) ∧
    (VerifyMerkleProof H leafHex [] rootHex = .ok false ↔ a ≠ r) := by
  have hv : VerifyMerkleProof H leafHex [] rootHex = .ok (decide (a = r)) := by
    simp [VerifyMerkleProof, ha, hr, computeRootFromProof, hane, computeRootSteps]
  refine ⟨?_, ?_, ?_, ?_, ?_⟩
  · rw [buildMerkleLevels_ok H [l] (by simp)
      (by intro x hx; simp at hx; subst hx; exact hl)]
    rfl
  · simp [merkleRootFromLevels, List.getLastD_cons]
  · simp [merkleProof, merkleProofAux]
  · rw [hv]
    by_cases hd : a = r <;> simp [hd]
  · rw [hv]
    by_cases hd : a = r <;> simp [hd]

/-- Witness for C9 at a concrete one-byte leaf with matching root. -/
theorem single_leaf_batch_witness :
    buildMerkleLevels constHash [[5]] = .ok [[[5]]] ∧
    merkleRootFromLevels [[[5]]] = [5] ∧
    merkleProof [[[5]]] 0 = .ok [] ∧
    (VerifyMerkleProof constHash ['0', '5'] [] ['0', '5'] = .ok true ↔ ([5] : List Nat) = [5]) ∧
    (VerifyMerkleProof constHash ['0', '5'] [] ['0', '5'] = .ok false ↔ ([5] : List Nat) ≠ [5]) :=
  single_leaf_batch constHash [5] (by decide) ['0', '5'] ['0', '5'] [5] [5]
    (by decide) (by decide) (by decide)

/-- Counterexample for C4: both hashes are decodable hex of the wrong byte
length (one byte instead of 32), yet `VerifyMerkleProof` returns a clean
no-match (`false` with no error) instead of the distinct malformed-input
error the claim requires for a wrong-length hash. -/
theorem verify_wrong_length_clean_mismatch :
    VerifyMerkleProof constHash ['a', 'b'] [] ['c', 'd'] = .ok false := by rfl

/-- Claim C4 (amended): `VerifyMerkleProof` returns a distinct error for
undecodable hex (leaf, root, or a proof entry's sibling hash) and for an
unknown side marker; any hash that decodes — regardless of byte length —
proceeds to root recomputation, and a clean boolean no-match (false, no
error) is returned exactly when all fields decode, the leaf is non-empty
and the recomputed root differs bytewise from the claimed root. -/
theorem verify_error_taxonomy (H : List Nat → List Nat) (leafHex rootHex : List Char)
    (proof : List MerkleProofStep) (a r : List Nat)
    (ha : hexDecode leafHex = some a) (hr : hexDecode rootHex = some r) :
    (VerifyMerkleProof H leafHex proof rootHex =
      match computeRootFromProof H a proof with
      | .error e => .error e
      | .ok c => .ok (decide (c = r))) ∧
    (∀ (lh : List Char) (pf : List MerkleProofStep) (rh : List Char),
      hexDecode lh = none → VerifyMerkleProof H lh pf rh = .error "invalid leaf hash encoding") ∧
    (∀ (pf : List MerkleProofStep) (rh : List Char),
      hexDecode rh = none → VerifyMerkleProof H leafHex pf rh = .error "invalid root hash encoding") ∧
    (∀ st rest, proof = st :: rest → a ≠ [] → hexDecode st.hash = none →
      VerifyMerkleProof H leafHex proof rootHex = .error "invalid proof hash encoding") ∧
    (∀ st rest sib, proof = st :: rest → a ≠ [] → hexDecode st.hash = some sib →
      st.side ≠ ['L'] → st.side ≠ ['R'] →
      VerifyMerkleProof H leafHex proof rootHex = .error "invalid proof side") ∧
    (∀ c, computeRootFromProof H a proof = .ok c → c ≠ r →
      VerifyMerkleProof H leafHex proof rootHex = .ok false) ∧
    (∀ c, computeRootFromProof H a proof = .ok c → c = r →
      VerifyMerkleProof H leafHex proof rootHex = .ok true) := by
  have hmain : VerifyMerkleProof H leafHex proof rootHex =
      match computeRootFromProof H a proof with
      | .error e => .error e
      | .ok c => .ok (decide (c = r)) := by
    simp [VerifyMerkleProof, ha, hr]
  refine ⟨hmain, ?_, ?_, ?_, ?_, ?_, ?_⟩
  · intro lh pf rh hnone
    simp [VerifyMerkleProof, hnone]
  · intro pf rh hnone
    simp [VerifyMerkleProof, ha, hnone]
  · intro st rest hp hane hdec
    rw [hmain, hp]
    simp [computeRootFromProof, hane, computeRootSteps, hdec]
  · intro st rest sib hp hane hdec hL hR
    rw [hmain, hp]
    simp [computeRootFromProof, hane, computeRootSteps, hdec, hL, hR]
  · intro c hc hne'
    rw [hmain, hc]
    simp [hne']
  · intro c hc he
    rw [hmain, hc]
    simp [he]

/-- Witness for the amended C4 at concrete decodable one-byte hashes. -/
theorem verify_error_taxonomy_witness :
    (VerifyMerkleProof constHash ['a', 'b'] [] ['c', 'd'] =
      match computeRootFromProof constHash [171] [] with
      | .error e => .error e
      | .ok c => .ok (decide (c = [205]))) ∧
    (∀ (lh : List Char) (pf : List MerkleProofStep) (rh : List Char),
      hexDecode lh = none →
      VerifyMerkleProof constHash lh pf rh = .error "invalid leaf hash encoding") ∧
    (∀ (pf : List MerkleProofStep) (rh : List Char),
      hexDecode rh = none →
      VerifyMerkleProof constHash ['a', 'b'] pf rh = .error "invalid root hash encoding") ∧
    (∀ st rest, ([] : List MerkleProofStep) = st :: rest → ([171] : List Nat) ≠ [] →
      hexDecode st.hash = none →
      VerifyMerkleProof constHash ['a', 'b'] [] ['c', 'd'] = .error "invalid proof hash encoding") ∧
    (∀ st rest sib, ([] : List MerkleProofStep) = st :: rest → ([171] : List Nat) ≠ [] →
      hexDecode st.hash = some sib → st.side ≠ ['L'] → st.side ≠ ['R'] →
      VerifyMerkleProof constHash ['a', 'b'] [] ['c', 'd'] = .error "invalid proof side") ∧
    (∀ c, computeRootFromProof constHash [171] [] = .ok c → c ≠ [205] →
      VerifyMerkleProof constHash ['a', 'b'] [] ['c', 'd'] = .ok false) ∧
    (∀ c, computeRootFromProof constHash [171] [] = .ok c → c = [205] →
      VerifyMerkleProof constHash ['a', 'b'] [] ['c', 'd'] = .ok true) :=
  verify_error_taxonomy constHash ['a', 'b'] ['c', 'd'] [] [171] [205]
    (by decide) (by decide)

/-! ## Batch-scheduler lemmas -/

theorem mapFromIdx_length {α β : Type} (f : Nat → α → β) :
    ∀ (n : Nat) (as : List α), (mapFromIdx f n as).length = as.length
  | _, [] => rfl
  | n, a :: as => by simp [mapFromIdx, mapFromIdx_length f (n + 1) as]

theorem mapFromIdx_get {α β : Type} (f : Nat → α → β) :
    ∀ (n : Nat) (as : List α) (i : Nat) (h : i < as.length)
      (h' : i < (mapFromIdx f n as).length),
    (mapFromIdx f n as).get ⟨i, h'⟩ = f (n + i) (as.get ⟨i, h⟩)
  | n, a :: as, 0, h, h' => by simp [mapFromIdx]
  | n, a :: as, i + 1, h, h' => by
    have hi : i < as.length := by simp at h; omega
    have hi' : i < (mapFromIdx f (n + 1) as).length := by
      rw [mapFromIdx_length]; exact hi
    simp only [mapFromIdx, List.get_cons_succ]
    rw [mapFromIdx_get f (n + 1) as i hi hi']
    congr 1
    omega

theorem mapFromIdx_getD {α β : Type} (f : Nat → α → β) (dα : α) (dβ : β) :
    ∀ (n : Nat) (as : List α) (i : Nat), i < as.length →
    (mapFromIdx f n as).getD i dβ = f (n + i) (as.getD i dα)
  | n, a :: as, 0, h => by simp [mapFromIdx]
  | n, a :: as, i + 1, h => by
    simp only [mapFromIdx, List.getD_cons_succ]
    rw [mapFromIdx_getD f dα dβ (n + 1) as i (by simp at h; omega)]
    congr 1
    omega

theorem mapFromIdx_forall {α β : Type} (f : Nat → α → β) (Q : β → Prop) :
    ∀ (n : Nat) (as : List α), (∀ k a, a ∈ as → Q (f k a)) →
    ∀ b ∈ mapFromIdx f n as, Q b
  | n, [], _ => by simp [mapFromIdx]
  | n, a :: as, h => by
    intro b hb
    simp only [mapFromIdx, List.mem_cons] at hb
    rcases hb with hb | hb
    · subst hb; exact h n a (by simp)
    · exact mapFromIdx_forall f Q (n + 1) as (fun k x hx => h k x (by simp [hx])) b hb

theorem mapFromIdx_fst {α β : Type} (g : Nat → α → β) :
    ∀ (n : Nat) (as : List α),
    (mapFromIdx (fun i a => (a, g i a)) n as).map Prod.fst = as
  | _, [] => rfl
  | n, a :: as => by simp [mapFromIdx, mapFromIdx_fst g (n + 1) as]

theorem flushBatch_build_ok (env : BatcherEnv) (items : List BatchItem)
    (hleaf : ∀ it ∈ items, it.leaf ≠ []) (hne : items ≠ []) :
    buildMerkleLevels env.H (items.map BatchItem.leaf)
      = .ok (buildFrom env.H (items.map BatchItem.leaf)) :=
  buildMerkleLevels_ok env.H (items.map BatchItem.leaf)
    (by simpa using hne)
    (by
      intro l hl
      obtain ⟨it, hit, rfl⟩ := List.mem_map.mp hl
      exact hleaf it hit)

/-- Shape of a flush whose ledger write fails: the identical error result,
with all timing fields from the flush clock, goes to every item; the single
`Write` call is recorded. -/
theorem flushBatch_err (env : BatcherEnv) (fc wc : Nat) (items : List BatchItem) (e : String)
    (hne : items ≠ []) (hleaf : ∀ it ∈ items, it.leaf ≠ [])
    (hled : ∀ r m, env.ledger wc r m = .error e) :
    flushBatch env fc wc items =
      (mapFromIdx (fun i it => (it,
        { MerkleBatchResult.zero with
            Err := e
            EnqueueUnixNS := it.enqueuedUnixNS
            FlushStartUnixNS := (env.clock fc).flushStartNS
            BuildStartUnixNS := (env.clock fc).buildStartNS
            BuildEndUnixNS := (env.clock fc).buildEndNS
            LedgerStartUnixNS := (env.clock fc).ledgerStartNS
            LedgerEndUnixNS := (env.clock fc).ledgerEndNS
            ResponseUnixNS := (env.clock fc).responseNS i })) 0 items,
       [⟨hexEncode (merkleRootFromLevels (buildFrom env.H (items.map BatchItem.leaf))),
         metaOf (hexEncode (merkleRootFromLevels (buildFrom env.H (items.map BatchItem.leaf))))
           (items.map BatchItem.leaf).length (env.clock fc).createdAt,
         (items.map BatchItem.leaf).length⟩]) := by
  unfold flushBatch
  rw [if_neg hne]
  simp only [flushBatch_build_ok env items hleaf hne, hled]

/-- Shape of a successful flush: every item receives the shared root, commit
ID and batch size together with its own index and proof. -/
theorem flushBatch_ok (env : BatcherEnv) (fc wc : Nat) (items : List BatchItem) (tx : String)
    (hne : items ≠ []) (hleaf : ∀ it ∈ items, it.leaf ≠ [])
    (hled : ∀ r m, env.ledger wc r m = .ok tx) :
    flushBatch env fc wc items =
      (mapFromIdx (fun i it => (it,
        { Root := hexEncode (merkleRootFromLevels (buildFrom env.H (items.map BatchItem.leaf)))
          TxID := tx
          Index := i
          BatchSize := items.length
          Proof := (merkleProof (buildFrom env.H (items.map BatchItem.leaf)) i).toOption.getD []
          Err := ""
          EnqueueUnixNS := it.enqueuedUnixNS
          FlushStartUnixNS := (env.clock fc).flushStartNS
          BuildStartUnixNS := (env.clock fc).buildStartNS
          BuildEndUnixNS := (env.clock fc).buildEndNS
          LedgerStartUnixNS := (env.clock fc).ledgerStartNS
          LedgerEndUnixNS := (env.clock fc).ledgerEndNS
          ResponseUnixNS := (env.clock fc).responseNS i })) 0 items,
       [⟨hexEncode (merkleRootFromLevels (buildFrom env.H (items.map BatchItem.leaf))),
         metaOf (hexEncode (merkleRootFromLevels (buildFrom env.H (items.map BatchItem.leaf))))
           (items.map BatchItem.leaf).length (env.clock fc).createdAt,
         (items.map BatchItem.leaf).length⟩]) := by
  unfold flushBatch
  rw [if_neg hne]
  simp only [flushBatch_build_ok env items hleaf hne, hled]

/-- Every error-result of a failed-write flush carries the identical error
and the populated timing fields. -/
theorem flushBatch_err_fields (env : BatcherEnv) (fc wc : Nat) (items : List BatchItem)
    (e : String) (hne : items ≠ []) (hleaf : ∀ it ∈ items, it.leaf ≠ [])
    (hled : ∀ r m, env.ledger wc r m = .error e) :
    ∀ d ∈ (flushBatch env fc wc items).1,
      d.2.Err = e ∧ d.2.TxID = "" ∧ d.2.Root = [] ∧
      d.2.FlushStartUnixNS = (env.clock fc).flushStartNS ∧
      d.2.BuildStartUnixNS = (env.clock fc).buildStartNS ∧
      d.2.BuildEndUnixNS = (env.clock fc).buildEndNS ∧
      d.2.LedgerStartUnixNS = (env.clock fc).ledgerStartNS ∧
      d.2.LedgerEndUnixNS = (env.clock fc).ledgerEndNS ∧
      d.2.EnqueueUnixNS = d.1.enqueuedUnixNS := by
  rw [flushBatch_err env fc wc items e hne hleaf hled]
  exact mapFromIdx_forall _ _ 0 items
    (fun k a ha => ⟨rfl, rfl, rfl, rfl, rfl, rfl, rfl, rfl, rfl⟩)

/-- Every result of a successful flush reports no error and the commit ID. -/
theorem flushBatch_ok_fields (env : BatcherEnv) (fc wc : Nat) (items : List BatchItem)
    (tx : String) (hne : items ≠ []) (hleaf : ∀ it ∈ items, it.leaf ≠ [])
    (hled : ∀ r m, env.ledger wc r m = .ok tx) :
    ∀ d ∈ (flushBatch env fc wc items).1, d.2.Err = "" ∧ d.2.TxID = tx := by
  rw [flushBatch_ok env fc wc items tx hne hleaf hled]
  exact mapFromIdx_forall _ _ 0 items (fun k a ha => ⟨rfl, rfl⟩)

/-- Every `Write` invocation a flush performs is for the full non-empty
batch handed to it. -/
theorem flushBatch_writes (env : BatcherEnv) (fc wc : Nat) (items : List BatchItem) :
    ∀ w ∈ (flushBatch env fc wc items).2, w.leafCount = items.length ∧ items ≠ [] := by
  by_cases hne : items = []
  · subst hne; simp [flushBatch]
  · unfold flushBatch
    rw [if_neg hne]
    split
    · simp
    · split <;> simp [hne]

theorem loopStep_bound (env : BatcherEnv) (hbs : 1 ≤ env.batchSize) (s : LoopState)
    (hs : s.batch.length < env.batchSize) (e : LoopEvent) :
    (loopStep env s e).1.batch.length < env.batchSize ∧
    (∀ w ∈ (loopStep env s e).2.2, 1 ≤ w.leafCount ∧ w.leafCount ≤ env.batchSize) := by
  cases e with
  | recv it =>
    simp only [loopStep]
    by_cases hth : env.batchSize ≤ (s.batch ++ [it]).length
    · rw [if_pos hth]
      refine ⟨by simpa using hbs, ?_⟩
      intro w hw
      have hb := flushBatch_writes env s.flushCount s.writeCount (s.batch ++ [it]) w hw
      have hlen : (s.batch ++ [it]).length = s.batch.length + 1 := by simp
      have hth' : env.batchSize ≤ s.batch.length + 1 := by omega
      omega
    · rw [if_neg hth]
      refine ⟨?_, by simp⟩
      simp only [List.length_append, List.length_singleton] at hth ⊢
      omega
  | timerFire =>
    simp only [loopStep]
    by_cases hb : s.batch = []
    · rw [if_pos hb]
      exact ⟨hs, by simp⟩
    · rw [if_neg hb]
      refine ⟨by simpa using hbs, ?_⟩
      intro w hw
      have hw' := flushBatch_writes env s.flushCount s.writeCount s.batch w hw
      have hpos : 1 ≤ s.batch.length := List.length_pos.mpr hb
      omega
  | stopSignal =>
    simp only [loopStep]
    by_cases hb : s.batch = []
    · rw [if_pos hb]
      exact ⟨hs, by simp⟩
    · rw [if_neg hb]
      refine ⟨by simpa using hbs, ?_⟩
      intro w hw
      have hw' := flushBatch_writes env s.flushCount s.writeCount s.batch w hw
      have hpos : 1 ≤ s.batch.length := List.length_pos.mpr hb
      omega

theorem runLoop_bound (env : BatcherEnv) (hbs : 1 ≤ env.batchSize) :
    ∀ (evs : List LoopEvent) (s : LoopState), s.batch.length < env.batchSize →
    (runLoop env s evs).1.batch.length < env.batchSize ∧
    (∀ w ∈ (runLoop env s evs).2.2, 1 ≤ w.leafCount ∧ w.leafCount ≤ env.batchSize)
  | [], s, hs => ⟨hs, by simp [runLoop]⟩
  | e :: evs, s, hs => by
    have hstep := loopStep_bound env hbs s hs e
    cases e with
    | stopSignal => simpa [runLoop] using hstep
    | recv it =>
      have hrest := runLoop_bound env hbs evs (loopStep env s (.recv it)).1 hstep.1
      simp only [runLoop]
      refine ⟨hrest.1, ?_⟩
      intro w hw
      rw [List.mem_append] at hw
      rcases hw with hw | hw
      · exact hstep.2 w hw
      · exact hrest.2 w hw
    | timerFire =>
      have hrest := runLoop_bound env hbs evs (loopStep env s .timerFire).1 hstep.1
      simp only [runLoop]
      refine ⟨hrest.1, ?_⟩
      intro w hw
      rw [List.mem_append] at hw
      rcases hw with hw | hw
      · exact hstep.2 w hw
      · exact hrest.2 w hw

/-! ## Batch-scheduler claims -/

/-- Claim C2: when the ledger's `Write` fails during a flush, every leaf of
that batch receives the identical error (none a success outcome), the
scheduler's open batch is empty afterwards (idle), and later batches whose
write succeeds flush normally. -/
theorem flush_ledger_error_all_or_nothing (env : BatcherEnv) (fc wc : Nat)
    (items : List BatchItem) (e : String)
    (hne : items ≠ []) (hleaf : ∀ it ∈ items, it.leaf ≠ [])
    (he : e ≠ "") (hled : ∀ r m, env.ledger wc r m = .error e) :
    ((flushBatch env fc wc items).1.map Prod.fst = items) ∧
    (∀ d ∈ (flushBatch env fc wc items).1, d.2.Err = e) ∧
    (∀ d ∈ (flushBatch env fc wc items).1, d.2.Err ≠ "" ∧ d.2.TxID = "" ∧ d.2.Root = []) ∧
    (∀ s : LoopState, s.batch = items →
      (loopStep env s .timerFire).1.batch = [] ∧ (loopStep env s .stopSignal).1.batch = []) ∧
    (∀ (fc' wc' : Nat) (items' : List BatchItem) (tx : String), items' ≠ [] →
      (∀ it ∈ items', it.leaf ≠ []) → (∀ r m, env.ledger wc' r m = .ok tx) →
      ∀ d ∈ (flushBatch env fc' wc' items').1, d.2.Err = "" ∧ d.2.TxID = tx) := by
  have hf := flushBatch_err_fields env fc wc items e hne hleaf hled
  refine ⟨?_, ?_, ?_, ?_, ?_⟩
  · rw [flushBatch_err env fc wc items e hne hleaf hled]
    exact mapFromIdx_fst _ 0 items
  · exact fun d hd => (hf d hd).1
  · intro d hd
    refine ⟨?_, (hf d hd).2.1, (hf d hd).2.2.1⟩
    rw [(hf d hd).1]
    exact he
  · intro s hsb
    have hsb' : s.batch ≠ [] := by rw [hsb]; exact hne
    constructor <;> simp [loopStep, hsb']
  · intro fc' wc' items' tx hne' hleaf' hled'
    exact flushBatch_ok_fields env fc' wc' items' tx hne' hleaf' hled'

/-- Witness for C2: a concrete one-item batch against the always-failing
ledger, with the always-succeeding conjunct instantiated at a second batch. -/
theorem flush_ledger_error_all_or_nothing_witness :
    (((flushBatch envFail 0 0 [item3]).1.map Prod.fst = [item3]) ∧
    (∀ d ∈ (flushBatch envFail 0 0 [item3]).1, d.2.Err = "ledger down") ∧
    (∀ d ∈ (flushBatch envFail 0 0 [item3]).1,
      d.2.Err ≠ "" ∧ d.2.TxID = "" ∧ d.2.Root = []) ∧
    (∀ s : LoopState, s.batch = [item3] →
      (loopStep envFail s .timerFire).1.batch = [] ∧
      (loopStep envFail s .stopSignal).1.batch = []) ∧
    (∀ (fc' wc' : Nat) (items' : List BatchItem) (tx : String), items' ≠ [] →
      (∀ it ∈ items', it.leaf ≠ []) → (∀ r m, envFail.ledger wc' r m = .ok tx) →
      ∀ d ∈ (flushBatch envFail fc' wc' items').1, d.2.Err = "" ∧ d.2.TxID = tx)) :=
  flush_ledger_error_all_or_nothing envFail 0 0 [item3] "ledger down"
    (by decide) (by decide) (by decide) (fun r m => rfl)

/-- Counterexample for C3: with a well-formed 32-byte leaf, an open batcher
and a ledger whose `Write` fails, the flush delivers a result whose timing
fields are populated — yet `Add` turns it into a bare error with the zero
`Outcome` (`return MerkleBatchResult{}, fmt.Errorf(res.Err)`), so a
ledger-side failure is NOT surfaced inside the returned Outcome. -/
theorem add_ledger_error_counterexample :
    ((flushBatch envFail 0 0 [item3]).1.map (fun d => d.2.Err) = ["ledger down"]) ∧
    (((flushBatch envFail 0 0 [item3]).1.headD (item3, MerkleBatchResult.zero)).2.FlushStartUnixNS
      = 11) ∧
    (((flushBatch envFail 0 0 [item3]).1.headD (item3, MerkleBatchResult.zero)).2.LedgerEndUnixNS
      = 15) ∧
    (item3.leaf.length = 32) ∧
    (addOutcome item3.leaf
        ((flushBatch envFail 0 0 [item3]).1.headD (item3, MerkleBatchResult.zero)).2
      = .error "ledger down") :=
  ⟨rfl, rfl, rfl, rfl, rfl⟩

/-- Claim C3 (amended): `Add` returns an error not only for malformed input
or a closed scheduler but also for every flush-side (ledger) failure, with
the zero Outcome; the result internally delivered to `Add` for a ledger
failure does carry the populated timing fields, but `Add` discards it. -/
theorem add_ledger_failure_paths (env : BatcherEnv) (fc wc : Nat) (items : List BatchItem)
    (e : String) (leaf : List Nat) (res : MerkleBatchResult)
    (hne : items ≠ []) (hleaf : ∀ it ∈ items, it.leaf ≠ [])
    (hled : ∀ r m, env.ledger wc r m = .error e)
    (hmem : (leaf, res) ∈ (flushBatch env fc wc items).1.map (fun d => (d.1.leaf, d.2)))
    (h32 : leaf.length = 32) (he : e ≠ "") :
    res.Err = e ∧
    res.FlushStartUnixNS = (env.clock fc).flushStartNS ∧
    res.BuildStartUnixNS = (env.clock fc).buildStartNS ∧
    res.BuildEndUnixNS = (env.clock fc).buildEndNS ∧
    res.LedgerStartUnixNS = (env.clock fc).ledgerStartNS ∧
    res.LedgerEndUnixNS = (env.clock fc).ledgerEndNS ∧
    addOutcome leaf res = .error e := by
  obtain ⟨d, hd, hpair⟩ := List.mem_map.mp hmem
  have hres : res = d.2 := by
    have := congrArg Prod.snd hpair
    simpa using this.symm
  subst hres
  have hf := flushBatch_err_fields env fc wc items e hne hleaf hled d hd
  refine ⟨hf.1, hf.2.2.2.1, hf.2.2.2.2.1, hf.2.2.2.2.2.1, hf.2.2.2.2.2.2.1,
    hf.2.2.2.2.2.2.2.1, ?_⟩
  have hErr : d.2.Err ≠ "" := by rw [hf.1]; exact he
  simp [addOutcome, h32, hErr, hf.1, he]

/-- Witness for the amended C3 at the concrete failing environment. -/
theorem add_ledger_failure_paths_witness :
    ((flushBatch envFail 0 0 [item3]).1.headD (item3, MerkleBatchResult.zero)).2.Err
        = "ledger down" ∧
    ((flushBatch envFail 0 0 [item3]).1.headD (item3, MerkleBatchResult.zero)).2.FlushStartUnixNS
        = (envFail.clock 0).flushStartNS ∧
    ((flushBatch envFail 0 0 [item3]).1.headD (item3, MerkleBatchResult.zero)).2.BuildStartUnixNS
        = (envFail.clock 0).buildStartNS ∧
    ((flushBatch envFail 0 0 [item3]).1.headD (item3, MerkleBatchResult.zero)).2.BuildEndUnixNS
        = (envFail.clock 0).buildEndNS ∧
    ((flushBatch envFail 0 0 [item3]).1.headD (item3, MerkleBatchResult.zero)).2.LedgerStartUnixNS
        = (envFail.clock 0).ledgerStartNS ∧
    ((flushBatch envFail 0 0 [item3]).1.headD (item3, MerkleBatchResult.zero)).2.LedgerEndUnixNS
        = (envFail.clock 0).ledgerEndNS ∧
    addOutcome (List.replicate 32 0)
        ((flushBatch envFail 0 0 [item3]).1.headD (item3, MerkleBatchResult.zero)).2
      = .error "ledger down" :=
  add_ledger_failure_paths envFail 0 0 [item3] "ledger down" (List.replicate 32 0)
    ((flushBatch envFail 0 0 [item3]).1.headD (item3, MerkleBatchResult.zero)).2
    (by decide) (by decide) (fun r m => rfl) (by decide) (by decide) (by decide)

/-- Claim C7: all Outcomes of one successful flush share the same root hash,
commit ID and batch size, and each Outcome's index equals the leaf's
position in the batch's arrival order, which is also the index its proof
is derived at. -/
theorem flush_success_outcomes (env : BatcherEnv) (fc wc : Nat) (items : List BatchItem)
    (tx : String) (hne : items ≠ []) (hleaf : ∀ it ∈ items, it.leaf ≠ [])
    (hled : ∀ r m, env.ledger wc r m = .ok tx) :
    ((flushBatch env fc wc items).1.map Prod.fst = items) ∧
    ((flushBatch env fc wc items).1.length = items.length) ∧
    (∀ i : Nat, i < items.length →
      (((flushBatch env fc wc items).1.getD i (⟨[], 0⟩, MerkleBatchResult.zero)).2.Root
          = hexEncode (merkleRootFromLevels (buildFrom env.H (items.map BatchItem.leaf)))) ∧
      (((flushBatch env fc wc items).1.getD i (⟨[], 0⟩, MerkleBatchResult.zero)).2.TxID = tx) ∧
      (((flushBatch env fc wc items).1.getD i (⟨[], 0⟩, MerkleBatchResult.zero)).2.BatchSize
          = items.length) ∧
      (((flushBatch env fc wc items).1.getD i (⟨[], 0⟩, MerkleBatchResult.zero)).2.Index = i) ∧
      (((flushBatch env fc wc items).1.getD i (⟨[], 0⟩, MerkleBatchResult.zero)).1
          = items.getD i ⟨[], 0⟩) ∧
      (merkleProof (buildFrom env.H (items.map BatchItem.leaf)) i
          = .ok (((flushBatch env fc wc items).1.getD i
              (⟨[], 0⟩, MerkleBatchResult.zero)).2.Proof)) ∧
      (((flushBatch env fc wc items).1.getD i (⟨[], 0⟩, MerkleBatchResult.zero)).2.Err = "")) := by
  have hfe := flushBatch_ok env fc wc items tx hne hleaf hled
  refine ⟨?_, ?_, ?_⟩
  · rw [hfe]
    exact mapFromIdx_fst _ 0 items
  · rw [hfe, mapFromIdx_length]
  · intro i hi
    have hget : (flushBatch env fc wc items).1.getD i (⟨[], 0⟩, MerkleBatchResult.zero)
        = (items.getD i ⟨[], 0⟩,
          { Root := hexEncode (merkleRootFromLevels (buildFrom env.H (items.map BatchItem.leaf)))
            TxID := tx
            Index := 0 + i
            BatchSize := items.length
            Proof := (merkleProof (buildFrom env.H (items.map BatchItem.leaf))
                (0 + i)).toOption.getD []
            Err := ""
            EnqueueUnixNS := (items.getD i ⟨[], 0⟩).enqueuedUnixNS
            FlushStartUnixNS := (env.clock fc).flushStartNS
            BuildStartUnixNS := (env.clock fc).buildStartNS
            BuildEndUnixNS := (env.clock fc).buildEndNS
            LedgerStartUnixNS := (env.clock fc).ledgerStartNS
            LedgerEndUnixNS := (env.clock fc).ledgerEndNS
            ResponseUnixNS := (env.clock fc).responseNS (0 + i) }) := by
      rw [hfe]
      exact mapFromIdx_getD _ ⟨[], 0⟩ _ 0 items i hi
    have hmp : merkleProof (buildFrom env.H (items.map BatchItem.leaf)) i
        = .ok (merkleProofAux (buildFrom env.H (items.map BatchItem.leaf)).dropLast i) :=
      merkleProof_ok env.H (items.map BatchItem.leaf) i (by simpa using hi)
    refine ⟨congrArg (fun p => p.2.Root) hget, congrArg (fun p => p.2.TxID) hget,
      congrArg (fun p => p.2.BatchSize) hget,
      (congrArg (fun p => p.2.Index) hget).trans (Nat.zero_add i),
      congrArg (fun p => p.1) hget, ?_, congrArg (fun p => p.2.Err) hget⟩
    have hp := congrArg (fun p => p.2.Proof) hget
    simp only at hp
    rw [hp, Nat.zero_add, hmp]
    rfl

/-- Witness for C7 at a concrete two-item batch with a succeeding ledger. -/
theorem flush_success_outcomes_witness :
    (((flushBatch envOk 0 0 [item3, ⟨List.replicate 32 1, 20⟩]).1.map Prod.fst
        = [item3, ⟨List.replicate 32 1, 20⟩]) ∧
    ((flushBatch envOk 0 0 [item3, ⟨List.replicate 32 1, 20⟩]).1.length
        = ([item3, ⟨List.replicate 32 1, 20⟩] : List BatchItem).length) ∧
    (∀ i : Nat, i < ([item3, ⟨List.replicate 32 1, 20⟩] : List BatchItem).length →
      (((flushBatch envOk 0 0 [item3, ⟨List.replicate 32 1, 20⟩]).1.getD i
          (⟨[], 0⟩, MerkleBatchResult.zero)).2.Root
          = hexEncode (merkleRootFromLevels (buildFrom envOk.H
              (([item3, ⟨List.replicate 32 1, 20⟩] : List BatchItem).map BatchItem.leaf)))) ∧
      (((flushBatch envOk 0 0 [item3, ⟨List.replicate 32 1, 20⟩]).1.getD i
          (⟨[], 0⟩, MerkleBatchResult.zero)).2.TxID = "tx1") ∧
      (((flushBatch envOk 0 0 [item3, ⟨List.replicate 32 1, 20⟩]).1.getD i
          (⟨[], 0⟩, MerkleBatchResult.zero)).2.BatchSize
          = ([item3, ⟨List.replicate 32 1, 20⟩] : List BatchItem).length) ∧
      (((flushBatch envOk 0 0 [item3, ⟨List.replicate 32 1, 20⟩]).1.getD i
          (⟨[], 0⟩, MerkleBatchResult.zero)).2.Index = i) ∧
      (((flushBatch envOk 0 0 [item3, ⟨List.replicate 32 1, 20⟩]).1.getD i
          (⟨[], 0⟩, MerkleBatchResult.zero)).1
          = ([item3, ⟨List.replicate 32 1, 20⟩] : List BatchItem).getD i ⟨[], 0⟩) ∧
      (merkleProof (buildFrom envOk.H
            (([item3, ⟨List.replicate 32 1, 20⟩] : List BatchItem).map BatchItem.leaf)) i
          = .ok (((flushBatch envOk 0 0 [item3, ⟨List.replicate 32 1, 20⟩]).1.getD i
              (⟨[], 0⟩, MerkleBatchResult.zero)).2.Proof)) ∧
      (((flushBatch envOk 0 0 [item3, ⟨List.replicate 32 1, 20⟩]).1.getD i
          (⟨[], 0⟩, MerkleBatchResult.zero)).2.Err = ""))) :=
  flush_success_outcomes envOk 0 0 [item3, ⟨List.replicate 32 1, 20⟩] "tx1"
    (by decide) (by decide) (fun r m => rfl)

/-- Claim C10: from the initial state, every reachable open batch holds
strictly fewer than `batchSize` leaves; every recorded `Write` belongs to a
non-empty batch of at most `batchSize` leaves; a flush of an empty batch is
a no-op; and admitting a leaf that reaches the threshold flushes
immediately, leaving an empty open batch. -/
theorem batcher_write_bounds (env : BatcherEnv) (hbs : 1 ≤ env.batchSize)
    (evs : List LoopEvent) :
    ((runLoop env ⟨[], 0, 0⟩ evs).1.batch.length < env.batchSize) ∧
    (∀ w ∈ (runLoop env ⟨[], 0, 0⟩ evs).2.2, 1 ≤ w.leafCount ∧ w.leafCount ≤ env.batchSize) ∧
    (∀ fc wc, flushBatch env fc wc [] = ([], [])) ∧
    (∀ (s : LoopState) (it : BatchItem), env.batchSize ≤ s.batch.length + 1 →
      (loopStep env s (.recv it)).1.batch = []) := by
  have h := runLoop_bound env hbs evs ⟨[], 0, 0⟩ (by simpa using hbs)
  refine ⟨h.1, h.2, ?_, ?_⟩
  · intro fc wc
    simp [flushBatch]
  · intro s it hth
    have hth' : env.batchSize ≤ (s.batch ++ [it]).length := by
      simpa using hth
    simp only [loopStep]
    rw [if_pos hth']

/-- Witness for C10 at a concrete environment and event sequence. -/
theorem batcher_write_bounds_witness :
    ((runLoop envOk ⟨[], 0, 0⟩ [.recv item3, .timerFire]).1.batch.length < envOk.batchSize) ∧
    (∀ w ∈ (runLoop envOk ⟨[], 0, 0⟩ [.recv item3, .timerFire]).2.2,
      1 ≤ w.leafCount ∧ w.leafCount ≤ envOk.batchSize) ∧
    (∀ fc wc, flushBatch envOk fc wc [] = ([], [])) ∧
    (∀ (s : LoopState) (it : BatchItem), envOk.batchSize ≤ s.batch.length + 1 →
      (loopStep envOk s (.recv it)).1.batch = []) :=
  batcher_write_bounds envOk (by decide) [.recv item3, .timerFire]

/-- C8 (code bug): `Add` after `Close` is a `select` between the closed stop
channel (always ready) and the buffered admission send (ready whenever the
buffer has space, since nothing drains it once the loop goroutine returned);
Go picks among ready cases nondeterministically, so the call may enqueue and
then block forever on its response channel instead of failing fast — the
model's run ignores every event after the stop signal, so no Outcome is
ever delivered for such a call. -/
theorem add_after_close_may_block :
    (AddAfterClose.enqueueBlocked ∈ addAfterClosePossible true) ∧
    (addAfterCloseDelivers .enqueueBlocked = none) ∧
    (AddAfterClose.failFast ∈ addAfterClosePossible true) ∧
    (addAfterCloseDelivers .failFast = some (.error "merkle batcher stopped")) ∧
    (runLoop envOk ⟨[], 0, 0⟩ [.stopSignal, .recv item3]
      = runLoop envOk ⟨[], 0, 0⟩ [.stopSignal]) :=
  ⟨by decide, rfl, by decide, rfl, rfl⟩

end MilitaryAudit
